import Mathlib

/-!
Verification of `homecredit/data/utils_old.py`: metadata-builder utilities for
the Home Credit dataset preparation script.  The Python functions are embedded
shallowly: machine-level effects (globbing, parquet reading, the features CSV,
pickling) become an explicit environment, fallible code returns `Option`
(`none` = an uncaught Python exception), and pandas/polars frames become
ordered association lists.
-/

namespace HomeCredit

/-- Polars dtypes that occur in this code (`pl.Int64`, `pl.Float64`,
`pl.String`, `pl.Date`), plus `null` for an absent dtype and `other` for any
dtype inferred by the reader that the code does not touch. -/
inductive Dtype where
  | int64
  | float64
  | string
  | date
  | boolean
  | null
  | other : String → Dtype
deriving DecidableEq, Repr

/-- Modelled from the spec: the configuration constants `COL_ID`, `COL_WEEK`
and `COL_DATE` imported from `homecredit.config`, a module absent from the
sources.  The spec calls them the identity, week and date columns; its worked
example for `set_dtypes` forces the identity column to be named `"id"`. -/
structure Config where
  colID : String
  colWEEK : String
  colDATE : String
deriving DecidableEq, Repr

/-- Modelled from the spec: the concrete configuration used in examples.  The
identity column is `"id"` (pinned by the spec's `set_dtypes` example); the week
and date column names are only described as "week" and "date" columns. -/
def specConfig : Config := { colID := "id", colWEEK := "week", colDATE := "date" }

/-- Modelled from the spec: the `PATH_DATA` constant from `homecredit.config`
(absent from the sources); only its role as a path prefix matters. -/
def PATH_DATA : String := "data"

/-- `gen_file_path(file_name, mode)`:
`f"{PATH_DATA}/parquet_files/{mode}/{mode}_{file_name}.parquet"`. -/
def gen_file_path (file_name : String) (mode : String) : String :=
  PATH_DATA ++ "/parquet_files/" ++ mode ++ "/" ++ mode ++ "_" ++ file_name ++ ".parquet"

/-- Python's `str.split(sep)` for a one-character separator, over the
character list of the string. -/
def splitChar (c : Char) : List Char → List (List Char)
  | [] => [[]]
  | x :: xs =>
    let r := splitChar c xs
    if x = c then [] :: r
    else match r with
      | [] => [[x]]
      | y :: ys => (x :: y) :: ys

/-- Strip leading and trailing whitespace, as Python's `int` does before
parsing. -/
def trimChars (cs : List Char) : List Char :=
  ((cs.dropWhile Char.isWhitespace).reverse.dropWhile Char.isWhitespace).reverse

/-- A non-empty run of decimal digits read as a number; `none` otherwise. -/
def digitsToNat (cs : List Char) : Option Nat :=
  if cs ≠ [] ∧ cs.all Char.isDigit then
    some (cs.foldl (fun n c => n * 10 + (c.toNat - '0'.toNat)) 0)
  else none

/-- Python's `int(s)` on the strings this code feeds it: optional surrounding
whitespace, an optional sign, then a non-empty run of decimal digits.
`none` models the `ValueError` raised on anything else. -/
def pyInt (s : String) : Option Int :=
  match trimChars s.data with
  | '-' :: rest => (digitsToNat rest).map (fun n => -(n : Int))
  | '+' :: rest => (digitsToNat rest).map (fun n => (n : Int))
  | t => (digitsToNat t).map (fun n => (n : Int))

/-- `int(path.split("_")[-1].split(".")[0])`: the numeric suffix of a path. -/
def pathNum (path : String) : Option Int :=
  pyInt (String.mk (((splitChar '_' path.data).getLastD path.data
    |> splitChar '.').headD []))

/-- The numeric suffix with Python's parse failure replaced by a default;
used only to state sortedness, under the hypothesis that every path parses. -/
def pathNumD (path : String) : Int :=
  (pathNum path).getD 0

/-- Python's `<=` on strings: lexicographic by code point. -/
def lexLe : List Char → List Char → Bool
  | [], _ => true
  | _ :: _, [] => false
  | a :: as, b :: bs => if a = b then lexLe as bs else decide (a < b)

/-- Python's ascending comparison on the `(int, str)` tuples produced by
`zip(paths_nums, paths)`: lexicographic, numbers first, ties by string. -/
def pairLe (a b : Int × String) : Prop :=
  a.1 < b.1 ∨ (a.1 = b.1 ∧ lexLe a.2.data b.2.data = true)

instance : DecidableRel pairLe := fun a b =>
  inferInstanceAs (Decidable (a.1 < b.1 ∨ (a.1 = b.1 ∧ lexLe a.2.data b.2.data = true)))

instance : IsTotal (Int × String) pairLe where
  total a b := by
    have lexTot : ∀ u v : List Char, lexLe u v = true ∨ lexLe v u = true := by
      intro u
      induction u with
      | nil => intro v; exact Or.inl rfl
      | cons x xs ih =>
        intro v
        cases v with
        | nil => exact Or.inr rfl
        | cons y ys =>
          by_cases hxy : x = y
          · subst hxy
            simpa [lexLe] using ih ys
          · rcases lt_trichotomy x y with h | h | h
            · left; simp [lexLe, hxy, h]
            · exact absurd h hxy
            · right; simp [lexLe, Ne.symm hxy, h]
    rcases lt_trichotomy a.1 b.1 with h | h | h
    · exact Or.inl (Or.inl h)
    · rcases lexTot a.2.data b.2.data with h2 | h2
      · exact Or.inl (Or.inr ⟨h, h2⟩)
      · exact Or.inr (Or.inr ⟨h.symm, h2⟩)
    · exact Or.inr (Or.inl h)

instance : IsTrans (Int × String) pairLe where
  trans a b c hab hbc := by
    have lexTrans : ∀ u v w : List Char, lexLe u v = true → lexLe v w = true →
        lexLe u w = true := by
      intro u
      induction u with
      | nil => intro v w _ _; rfl
      | cons x xs ih =>
        intro v w huv hvw
        cases v with
        | nil => simp [lexLe] at huv
        | cons y ys =>
          cases w with
          | nil => simp [lexLe] at hvw
          | cons z zs =>
            by_cases hxy : x = y <;> by_cases hyz : y = z
            · subst hxy; subst hyz
              simp only [lexLe, if_pos rfl] at huv hvw ⊢
              exact ih ys zs huv hvw
            · subst hxy
              simp only [lexLe, if_pos rfl, if_neg hyz] at hvw ⊢
              exact hvw
            · subst hyz
              simp only [lexLe, if_pos rfl, if_neg hxy] at huv ⊢
              exact huv
            · simp only [lexLe, if_neg hxy, if_neg hyz, decide_eq_true_eq] at huv hvw
              have hxz : x < z := lt_trans huv hvw
              have hne : x ≠ z := ne_of_lt hxz
              simp [lexLe, hne, hxz]
    rcases hab with h | ⟨he, hs⟩
    · rcases hbc with h2 | ⟨he2, _⟩
      · exact Or.inl (h.trans h2)
      · exact Or.inl (he2 ▸ h)
    · rcases hbc with h2 | ⟨he2, hs2⟩
      · exact Or.inl (he ▸ h2)
      · exact Or.inr ⟨he.trans he2, lexTrans _ _ _ hs hs2⟩

/-- `sort_paths(paths)`.  A singleton is returned unchanged (no suffix is ever
parsed); otherwise every suffix is parsed (`ValueError` → `none` if any fails)
and `sorted(zip(paths_nums, paths))` sorts the pairs ascending; finally the
paths are projected back out.  `zip` of the parsed numbers with the paths is
written directly as a `map` pairing each path with its parsed number, which is
the same list, and Python's stable `sorted` on the (antisymmetric, total) tuple
order is realised by `List.insertionSort`. -/
def sort_paths (paths : List String) : Option (List String) :=
  if paths.length = 1 then some paths
  else if paths.all (fun p => (pathNum p).isSome) then
    some (((paths.map (fun p => (pathNumD p, p))).insertionSort pairLe).map Prod.snd)
  else none

/-- `col[-1]` guarded against the empty string: `none` models Python's
`IndexError` on `""[-1]`. -/
def lastChar (s : String) : Option Char :=
  s.data.getLast?

/-- The body of the loop in `set_dtypes` for one `(col, dtype)` entry: the
identity/week/group-number columns are forced to `Int64`, the known date column
to `Date`, then the suffix convention applies (`P`/`A` → `Float64`,
`M` → `String`, `D` → `Date`); any other suffix — the explicit `("T", "L")`
`pass` branch and the implicit fallthrough — leaves the dtype unchanged. -/
def set_dtypes_col (cfg : Config) (col : String) (dtype : Dtype) : Option Dtype :=
  if col = cfg.colID ∨ col = cfg.colWEEK ∨ col = "num_group1" ∨ col = "num_group2" then
    some Dtype.int64
  else if col = cfg.colDATE then
    some Dtype.date
  else
    match lastChar col with
    | none => none
    | some c =>
      if c = 'P' ∨ c = 'A' then some Dtype.float64
      else if c = 'M' then some Dtype.string
      else if c = 'D' then some Dtype.date
      else some dtype

/-- `set_dtypes(schema)`: the per-column update applied over the ordered
schema dictionary; any per-column `IndexError` aborts the call. -/
def set_dtypes (cfg : Config) : List (String × Dtype) → Option (List (String × Dtype))
  | [] => some []
  | (c, d) :: rest => do
    let d2 ← set_dtypes_col cfg c d
    let rest2 ← set_dtypes cfg rest
    some ((c, d2) :: rest2)

/-- One row of the features CSV (`features_{version}.csv`) after
`fillna("")` and `set_index("feature")`.  `date_col` is kept numeric with
missing values reading as `0`, so the `date_col == 1` filter matches the
pandas comparison. -/
structure FeatureRow where
  feature : String
  source_group : String
  new_name : String
  agg : String
  date_col : Int
deriving DecidableEq, Repr

/-- A pandas `.loc[col]` lookup on the feature index: all rows whose index
value is `col`.  An empty result is a `KeyError`, several rows make `.loc`
return a frame whose truthiness later raises; both are modelled at use
sites. -/
def rowsFor (rows : List FeatureRow) (col : String) : List FeatureRow :=
  rows.filter (fun r => r.feature = col)

/-- A polars DataFrame as read from a parquet file: the ordered
column-to-dtype schema, plus the cells of each column (`none` is a null).
Only columns flagged for dummy encoding ever have their cells inspected, so
cells are carried as optional strings. -/
structure DF where
  schema : List (String × Dtype)
  values : String → List (Option String)

/-- `df.columns`: the column names in schema order. -/
def DF.columns (df : DF) : List String :=
  df.schema.map Prod.fst

/-- The ambient machine for `write_data_props`: the parsed features CSV, the
result of `glob` on a full pattern path, and the frame obtained by
`pl.read_parquet` on a path (`none` is a read failure). -/
structure Env where
  featuresCsv : List FeatureRow
  glob : String → List String
  readParquet : String → Option DF

/-- Python `d[k] = v` on a dict kept as an ordered association list
(keys occur at most once, as in a Python dict): overwrite in place if the
key exists, append otherwise. -/
def dictInsert {α : Type} : List (String × α) → String → α → List (String × α)
  | [], k, v => [(k, v)]
  | p :: ps, k, v => if p.1 = k then (k, v) :: ps else p :: dictInsert ps k v

/-- Python `d1.update(d2)`. -/
def dictUpdate {α : Type} (d1 d2 : List (String × α)) : List (String × α) :=
  d2.foldl (fun acc kv => dictInsert acc kv.1 kv.2) d1

/-- Python `d[k]` as an `Option` (a missing key is a `KeyError`). -/
def dictGet {α : Type} (d : List (String × α)) (k : String) : Option α :=
  (d.find? (fun p => p.1 = k)).map Prod.snd

/-- `np.unique(columns)`: the distinct values in ascending lexicographic
order. -/
def npUnique (xs : List String) : List String :=
  (xs.dedup).insertionSort (fun a b => lexLe a.data b.data = true)

/-- What one iteration of the per-column loop of `write_data_props`
contributes: `mapping[col]`, the optional `cols_cat_i` entry, and
`schema[col]` for `cols_dtypes`. -/
structure ColResult where
  mapped : String
  cat : Option (List String)
  dtype : Dtype
deriving DecidableEq, Repr

/-- `[i for i in df[col].unique() if (i is not None) & (i != "")]`: the
distinct cell values of a column that are neither null nor the empty
string. -/
def catDomain (df : DF) (col : String) : List String :=
  ((df.values col).dedup).filterMap (fun v =>
    match v with
    | none => none
    | some s => if s = "" then none else some s)

/-- The body of the `for col in df.columns` loop in `write_data_props`.
If `col` is in the group-filtered feature index, the mapping gets the row's
`new_name` when it is non-empty and `col` itself otherwise, and — using the
UNFILTERED features table, as the source does — a `"dummy"` `agg` flag
collects the distinct cell values of the column that are neither null nor
the empty string.  `.loc` on an index holding `col` more than once yields a
frame whose truthiness raises (`none`); columns absent from the filtered
index map to themselves. -/
def processColumn (featuresAll featuresSg : List FeatureRow) (df : DF)
    (schema : List (String × Dtype)) (col : String) : Option ColResult := do
  let dtype ← dictGet schema col
  match rowsFor featuresSg col with
  | [] => some { mapped := col, cat := none, dtype := dtype }
  | [row] =>
    let mapped := if row.new_name ≠ "" then row.new_name else col
    match rowsFor featuresAll col with
    | [rowAll] =>
      if rowAll.agg = "dummy" then
        some { mapped := mapped, cat := some (catDomain df col), dtype := dtype }
      else
        some { mapped := mapped, cat := none, dtype := dtype }
    | _ => none
  | _ => none

/-- The `"paths"` entry of a `structure_dict` value.  The source initialises
it to `{"train": {}, "test": []}` — the train slot an empty dict, the test
slot an empty list — and never writes to it again. -/
structure PathsField where
  train : List (String × String)
  test : List String
deriving DecidableEq, Repr

/-- One `structure_dict` entry: paths placeholder, normalized schema, and the
column rename mapping (initialised to `None` per column, then filled). -/
structure PatternStruct where
  paths : PathsField
  schema : List (String × Dtype)
  columns_map : List (String × Option String)
deriving DecidableEq, Repr

/-- `structure_dict` initial value for one pattern. -/
def initPatternStruct : PatternStruct :=
  { paths := { train := [], test := [] }, schema := [], columns_map := [] }

/-- Accumulator of the per-column loop. -/
structure ColLoopState where
  mapping : List (String × Option String)
  cols_to_incl : List String
  cols_cat_i : List (String × List String)
  cols_dtypes : List (String × Dtype)
deriving DecidableEq, Repr

/-- What processing one file-name pattern yields: the `structure_dict` entry
and the per-pattern accumulators merged into the group afterwards. -/
structure PatternOut where
  struct : PatternStruct
  cols_to_incl : List String
  cols_cat_i : List (String × List String)
  cols_dtypes : List (String × Dtype)
deriving DecidableEq, Repr

/-- One step of the per-column loop: record the mapping, extend
`cols_to_incl`, add the categorical entry when present, and record the
dtype. -/
def colStep (featuresAll featuresSg : List FeatureRow) (df : DF)
    (schema : List (String × Dtype)) (acc : ColLoopState) (col : String) :
    Option ColLoopState := do
  let r ← processColumn featuresAll featuresSg df schema col
  some { mapping := dictInsert acc.mapping col (some r.mapped),
         cols_to_incl := acc.cols_to_incl ++ [r.mapped],
         cols_cat_i := (match r.cat with
           | some vals => dictInsert acc.cols_cat_i col vals
           | none => acc.cols_cat_i),
         cols_dtypes := dictInsert acc.cols_dtypes col r.dtype }

/-- The `for col in df.columns` loop. -/
def colLoop (featuresAll featuresSg : List FeatureRow) (df : DF)
    (schema : List (String × Dtype)) :
    List String → ColLoopState → Option ColLoopState
  | [], acc => some acc
  | col :: rest, acc => do
    let acc2 ← colStep featuresAll featuresSg df schema acc col
    colLoop featuresAll featuresSg df schema rest acc2

/-- The body of the `for file_name in file_names` loop of
`write_data_props`: glob and sort the train paths, read the first train file
(`paths_i[0]` — an empty glob is an uncaught index error), normalize its
schema with `set_dtypes`, glob and sort the test paths (the source computes
and then discards them), then run the per-column loop.  The `"paths"` field
of the produced entry keeps its initial empty value, exactly as the source
leaves it. -/
def processPattern (cfg : Config) (env : Env) (featuresAll featuresSg : List FeatureRow)
    (file_name : String) : Option PatternOut := do
  let trainPaths ← sort_paths (env.glob (gen_file_path file_name "train"))
  let firstTrain ← trainPaths.head?
  let df ← env.readParquet firstTrain
  let schema ← set_dtypes cfg df.schema
  let _testPaths ← sort_paths (env.glob (gen_file_path file_name "test"))
  let init : ColLoopState :=
    { mapping := df.columns.map (fun c => (c, none)),
      cols_to_incl := [], cols_cat_i := [], cols_dtypes := [] }
  let res ← colLoop featuresAll featuresSg df schema df.columns init
  some { struct := { paths := { train := [], test := [] },
                     schema := schema,
                     columns_map := res.mapping },
         cols_to_incl := res.cols_to_incl,
         cols_cat_i := res.cols_cat_i,
         cols_dtypes := res.cols_dtypes }

/-- The per-group record accumulated by `write_data_props` (the keys it adds
to `props`), along with the input `paths` patterns. -/
structure GroupProps where
  paths : List String
  structure_dict : List (String × PatternStruct)
  columns : List String
  columns_cat : List (String × List String)
  columns_dtypes : List (String × Dtype)
  columns_date_index : List String
deriving DecidableEq, Repr

/-- Accumulator of the per-pattern loop within one group. -/
structure GroupLoopState where
  structure_dict : List (String × PatternStruct)
  columns : List String
  cols_cat : List (String × List String)
  columns_dtypes : List (String × Dtype)
deriving DecidableEq, Repr

/-- The `for file_name in file_names` loop within one group, merging the
per-pattern results into the group accumulators. -/
def patternLoop (cfg : Config) (env : Env) (featuresAll featuresSg : List FeatureRow) :
    List String → GroupLoopState → Option GroupLoopState
  | [], acc => some acc
  | fn :: rest, acc => do
    let out ← processPattern cfg env featuresAll featuresSg fn
    patternLoop cfg env featuresAll featuresSg rest
      { structure_dict := dictInsert acc.structure_dict fn out.struct,
        columns := acc.columns ++ out.cols_to_incl,
        cols_cat := dictUpdate acc.cols_cat out.cols_cat_i,
        columns_dtypes := dictUpdate acc.columns_dtypes out.cols_dtypes }

/-- The body of the `for name, props in dfs_props.items()` loop: filter the
features table to the group, process every pattern, merge the per-pattern
results (`update`/`extend`), deduplicate and sort the column list with
`np.unique`, and list the features flagged `date_col == 1` for the group. -/
def processGroup (cfg : Config) (env : Env) (featuresAll : List FeatureRow)
    (name : String) (patterns : List String) : Option GroupProps := do
  let featuresSg := featuresAll.filter (fun r => r.source_group = name)
  let init : GroupLoopState :=
    { structure_dict := patterns.map (fun fn => (fn, initPatternStruct)),
      columns := [], cols_cat := [], columns_dtypes := [] }
  let st ← patternLoop cfg env featuresAll featuresSg patterns init
  some { paths := patterns,
         structure_dict := st.structure_dict,
         columns := npUnique st.columns,
         columns_cat := st.cols_cat,
         columns_dtypes := st.columns_dtypes,
         columns_date_index :=
           ((featuresAll.filter (fun r => r.date_col = 1)).filter
             (fun r => r.source_group = name)).map (fun r => r.feature) }

/-- The serialized values pickle can hold here: strings, integers and
nested lists.  Dicts are encoded as lists of two-element key/value lists. -/
inductive PVal where
  | str : String → PVal
  | int : Int → PVal
  | list : List PVal → PVal

/-- Dtype serialization tag. -/
def encodeDtype : Dtype → PVal
  | Dtype.int64 => PVal.str "Int64"
  | Dtype.float64 => PVal.str "Float64"
  | Dtype.string => PVal.str "String"
  | Dtype.date => PVal.str "Date"
  | Dtype.boolean => PVal.str "Boolean"
  | Dtype.null => PVal.str "Null"
  | Dtype.other s => PVal.list [PVal.str "Other", PVal.str s]

/-- Dtype deserialization. -/
def decodeDtype : PVal → Option Dtype
  | PVal.str "Int64" => some Dtype.int64
  | PVal.str "Float64" => some Dtype.float64
  | PVal.str "String" => some Dtype.string
  | PVal.str "Date" => some Dtype.date
  | PVal.str "Boolean" => some Dtype.boolean
  | PVal.str "Null" => some Dtype.null
  | PVal.list [PVal.str "Other", PVal.str s] => some (Dtype.other s)
  | _ => none

/-- Encode a list elementwise. -/
def encodeListWith {α : Type} (f : α → PVal) (xs : List α) : PVal :=
  PVal.list (xs.map f)

/-- Decode the elements of a serialized list one by one. -/
def decodeList {α : Type} (g : PVal → Option α) : List PVal → Option (List α)
  | [] => some []
  | v :: vs => do
    let x ← g v
    let xs ← decodeList g vs
    some (x :: xs)

/-- Decode a list elementwise. -/
def decodeListWith {α : Type} (g : PVal → Option α) : PVal → Option (List α)
  | PVal.list vs => decodeList g vs
  | _ => none

/-- Decode a serialized string. -/
def decodeStr : PVal → Option String
  | PVal.str s => some s
  | _ => none

/-- Encode an ordered string-keyed dict. -/
def encodeAssoc {α : Type} (f : α → PVal) (xs : List (String × α)) : PVal :=
  PVal.list (xs.map (fun kv => PVal.list [PVal.str kv.1, f kv.2]))

/-- Decode one serialized key/value pair. -/
def decodePair {α : Type} (g : PVal → Option α) : PVal → Option (String × α)
  | PVal.list [PVal.str k, w] => (g w).map (fun x => (k, x))
  | _ => none

/-- Decode an ordered string-keyed dict. -/
def decodeAssoc {α : Type} (g : PVal → Option α) : PVal → Option (List (String × α))
  | PVal.list vs => decodeList (decodePair g) vs
  | _ => none

/-- Encode an optional string (a `columns_map` value). -/
def encodeOptStr : Option String → PVal
  | none => PVal.list []
  | some s => PVal.list [PVal.str s]

/-- Decode an optional string. -/
def decodeOptStr : PVal → Option (Option String)
  | PVal.list [] => some none
  | PVal.list [PVal.str s] => some (some s)
  | _ => none

/-- Encode a `PathsField`. -/
def encodePathsField (p : PathsField) : PVal :=
  PVal.list [encodeAssoc PVal.str p.train, encodeListWith PVal.str p.test]

/-- Decode a `PathsField`. -/
def decodePathsField : PVal → Option PathsField
  | PVal.list [tr, te] => do
    let train ← decodeAssoc decodeStr tr
    let test ← decodeListWith decodeStr te
    some { train := train, test := test }
  | _ => none

/-- Encode a `PatternStruct`. -/
def encodePatternStruct (p : PatternStruct) : PVal :=
  PVal.list [encodePathsField p.paths, encodeAssoc encodeDtype p.schema,
    encodeAssoc encodeOptStr p.columns_map]

/-- Decode a `PatternStruct`. -/
def decodePatternStruct : PVal → Option PatternStruct
  | PVal.list [pa, sc, cm] => do
    let paths ← decodePathsField pa
    let schema ← decodeAssoc decodeDtype sc
    let columns_map ← decodeAssoc decodeOptStr cm
    some { paths := paths, schema := schema, columns_map := columns_map }
  | _ => none

/-- Encode a `GroupProps`. -/
def encodeGroupProps (g : GroupProps) : PVal :=
  PVal.list [encodeListWith PVal.str g.paths,
    encodeAssoc encodePatternStruct g.structure_dict,
    encodeListWith PVal.str g.columns,
    encodeAssoc (encodeListWith PVal.str) g.columns_cat,
    encodeAssoc encodeDtype g.columns_dtypes,
    encodeListWith PVal.str g.columns_date_index]

/-- Decode a `GroupProps`. -/
def decodeGroupProps : PVal → Option GroupProps
  | PVal.list [pa, st, co, cc, cd, di] => do
    let paths ← decodeListWith decodeStr pa
    let structure_dict ← decodeAssoc decodePatternStruct st
    let columns ← decodeListWith decodeStr co
    let columns_cat ← decodeAssoc (decodeListWith decodeStr) cc
    let columns_dtypes ← decodeAssoc decodeDtype cd
    let columns_date_index ← decodeListWith decodeStr di
    some { paths := paths, structure_dict := structure_dict, columns := columns,
           columns_cat := columns_cat, columns_dtypes := columns_dtypes,
           columns_date_index := columns_date_index }
  | _ => none

/-- Modelled from the spec: `pickle.dump` of the final `dfs_props` dict as a
faithful serialization of the per-group records (the pickle module is not
part of the sources; the spec states the written blob round-trips to the
in-memory structure). -/
def pickleDump (props : List (String × GroupProps)) : PVal :=
  encodeAssoc encodeGroupProps props

/-- Modelled from the spec: `pickle.load` of the blob written by
`write_data_props`. -/
def pickleLoad (blob : PVal) : Option (List (String × GroupProps)) :=
  decodeAssoc decodeGroupProps blob

/-- The `for name, props in dfs_props.items()` loop over the groups. -/
def groupLoop (cfg : Config) (env : Env) (featuresAll : List FeatureRow) :
    List (String × List String) → Option (List (String × GroupProps))
  | [] => some []
  | gp :: rest => do
    let g ← processGroup cfg env featuresAll gp.1 gp.2
    let rs ← groupLoop cfg env featuresAll rest
    some ((gp.1, g) :: rs)

/-- `write_data_props(dfs_props, version)`: reads the features CSV (carried
in the environment, with `fillna` and `set_index` already reflected in
`FeatureRow`), loops over the groups building their records, and pickles the
resulting dict.  The returned pair is the in-memory structure at the moment
of writing together with the written blob; `none` is an uncaught
exception. -/
def write_data_props (cfg : Config) (env : Env)
    (dfs_props : List (String × List String)) :
    Option (List (String × GroupProps) × PVal) := do
  let groups ← groupLoop cfg env env.featuresCsv dfs_props
  some (groups, pickleDump groups)

/-- A concrete sample frame: an id column, a categorical `M` column with
nulls, empties and a repeated value, and a `T` column the dtype rules leave
alone. -/
def dfA : DF :=
  { schema := [("id", Dtype.other "i32"), ("cat_M", Dtype.string), ("x_T", Dtype.boolean)],
    values := fun c =>
      if c = "cat_M" then [some "u", none, some "", some "v", some "u"] else [] }

/-- The features CSV used in the concrete runs: `cat_M` is renamed and
flagged for dummy encoding; `x_T` keeps its name and is a date-flagged
feature. -/
def featuresA : List FeatureRow :=
  [{ feature := "cat_M", source_group := "g", new_name := "catX_M", agg := "dummy",
     date_col := 0 },
   { feature := "x_T", source_group := "g", new_name := "", agg := "", date_col := 1 }]

/-- A machine on which the whole run succeeds: group `g`, pattern `a`, two
train files (listed by `glob` out of order) and one test file. -/
def envA : Env :=
  { featuresCsv := featuresA,
    glob := fun p =>
      if p = gen_file_path "a" "train" then
        ["data/parquet_files/train/train_a_2.parquet",
         "data/parquet_files/train/train_a_1.parquet"]
      else if p = gen_file_path "a" "test" then
        ["data/parquet_files/test/test_a_1.parquet"]
      else [],
    readParquet := fun p =>
      if p = "data/parquet_files/train/train_a_1.parquet" then some dfA else none }

/-- The in-memory structure `write_data_props` builds on `envA`. -/
def resA : List (String × GroupProps) :=
  ((write_data_props specConfig envA [("g", ["a"])]).map Prod.fst).getD []

/-- The blob `write_data_props` writes on `envA`. -/
def blobA : PVal :=
  ((write_data_props specConfig envA [("g", ["a"])]).map Prod.snd).getD (PVal.list [])

/-- The per-pattern output computed on `envA` for group `g`, pattern `a`. -/
def outA : PatternOut :=
  (processPattern specConfig envA featuresA
      (featuresA.filter (fun r => r.source_group = "g")) "a").getD
    { struct := initPatternStruct, cols_to_incl := [], cols_cat_i := [],
      cols_dtypes := [] }

/-- Like `envA` but the train glob for pattern `a` comes back empty. -/
def envEmptyTrain : Env :=
  { featuresCsv := featuresA,
    glob := fun p =>
      if p = gen_file_path "a" "test" then
        ["data/parquet_files/test/test_a_1.parquet"]
      else [],
    readParquet := fun p =>
      if p = "data/parquet_files/train/train_a_1.parquet" then some dfA else none }

/-- Like `envA` but the test glob for pattern `a` comes back empty. -/
def envEmptyTest : Env :=
  { featuresCsv := featuresA,
    glob := fun p =>
      if p = gen_file_path "a" "train" then
        ["data/parquet_files/train/train_a_2.parquet",
         "data/parquet_files/train/train_a_1.parquet"]
      else [],
    readParquet := fun p =>
      if p = "data/parquet_files/train/train_a_1.parquet" then some dfA else none }

theorem mem_pairs_pathNumD {paths : List String} {x : Int × String}
    (hx : x ∈ paths.map (fun p => (pathNumD p, p))) : x.1 = pathNumD x.2 := by
  obtain ⟨p, _, rfl⟩ := List.mem_map.mp hx
  rfl

/-- C3: for lists of well-formed `name_<n>.ext` paths `sort_paths` succeeds,
any list it returns on such input is sorted ascending by the numeric suffix,
every singleton list is returned unchanged, and the worked example sorts as
stated. -/
theorem sort_paths_sorts_by_suffix :
    (∀ paths : List String, (∀ p ∈ paths, (pathNum p).isSome) →
      (sort_paths paths).isSome)
  ∧ (∀ paths out : List String, (∀ p ∈ paths, (pathNum p).isSome) →
      sort_paths paths = some out →
      out.Sorted (fun a b => pathNumD a ≤ pathNumD b))
  ∧ (∀ p : String, sort_paths [p] = some [p])
  ∧ sort_paths ["a_2.parquet", "a_10.parquet", "a_1.parquet"]
      = some ["a_1.parquet", "a_2.parquet", "a_10.parquet"] := by
  refine ⟨?_, ?_, ?_, by decide⟩
  · intro paths h
    unfold sort_paths
    by_cases h1 : paths.length = 1
    · rw [if_pos h1]; rfl
    · rw [if_neg h1, if_pos (List.all_eq_true.mpr h)]; rfl
  · intro paths out h ho
    unfold sort_paths at ho
    by_cases h1 : paths.length = 1
    · rw [if_pos h1] at ho
      obtain ⟨a, rfl⟩ := List.length_eq_one.mp h1
      cases ho
      simp [List.Sorted]
    · rw [if_neg h1, if_pos (List.all_eq_true.mpr h)] at ho
      cases ho
      have hsorted :=
        List.sorted_insertionSort pairLe (paths.map (fun p => (pathNumD p, p)))
      have hmem : ∀ x ∈ (paths.map (fun p => (pathNumD p, p))).insertionSort pairLe,
          x.1 = pathNumD x.2 := by
        intro x hx
        exact mem_pairs_pathNumD ((List.mem_insertionSort pairLe).mp hx)
      have hpw : ((paths.map (fun p => (pathNumD p, p))).insertionSort pairLe).Pairwise
          (fun a b => pathNumD a.2 ≤ pathNumD b.2) := by
        refine List.Pairwise.imp_of_mem ?_ hsorted
        intro a b ha hb hab
        have ha1 := hmem a ha
        have hb1 := hmem b hb
        rcases hab with hlt | ⟨heq, _⟩
        · exact ha1 ▸ hb1 ▸ le_of_lt hlt
        · exact ha1 ▸ hb1 ▸ le_of_eq heq
      exact List.pairwise_map.mpr hpw
  · intro p
    rfl

/-- C3 witness: the general sortedness clause applied to a concrete
two-element list. -/
theorem sort_paths_sorts_by_suffix_witness :
    List.Sorted (fun a b => pathNumD a ≤ pathNumD b) ["b_1.x", "b_3.x"] :=
  sort_paths_sorts_by_suffix.2.1 ["b_3.x", "b_1.x"] ["b_1.x", "b_3.x"]
    (by decide) (by decide)

/-- C10: on input whose trailing suffixes all parse, the output of
`sort_paths` is a permutation of the input — same length, same paths with
the same multiplicities. -/
theorem sort_paths_perm_of_input (paths out : List String)
    (h : ∀ p ∈ paths, (pathNum p).isSome) (ho : sort_paths paths = some out) :
    out.Perm paths := by
  unfold sort_paths at ho
  by_cases h1 : paths.length = 1
  · rw [if_pos h1] at ho
    cases ho
    exact List.Perm.refl _
  · rw [if_neg h1, if_pos (List.all_eq_true.mpr h)] at ho
    cases ho
    have hperm :=
      (List.perm_insertionSort pairLe (paths.map (fun p => (pathNumD p, p)))).map Prod.snd
    refine hperm.trans ?_
    have hid : List.map Prod.snd (List.map (fun p => (pathNumD p, p)) paths) = paths := by
      rw [List.map_map]
      exact List.map_id paths
    rw [hid]

/-- C10 witness: the permutation property at a concrete input. -/
theorem sort_paths_perm_of_input_witness :
    List.Perm ["c_1.x", "c_2.x"] ["c_2.x", "c_1.x"] :=
  sort_paths_perm_of_input ["c_2.x", "c_1.x"] ["c_1.x", "c_2.x"]
    (by decide) (by decide)

/-- C6 counterexample: a singleton list whose trailing suffix is not numeric
is returned unchanged — `sort_paths` does not fail on it, because the
singleton branch returns before any suffix is parsed. -/
theorem sort_paths_singleton_nonnumeric_returns :
    pathNum "a_x.parquet" = none
    ∧ sort_paths ["a_x.parquet"] = some ["a_x.parquet"] := by decide

/-- C6 amended: on a list that is not a singleton, any path with a
non-numeric trailing suffix makes `sort_paths` fail. -/
theorem sort_paths_nonnumeric_error (paths : List String) (h1 : paths.length ≠ 1)
    (p : String) (hp : p ∈ paths) (hn : pathNum p = none) :
    sort_paths paths = none := by
  have h2 : ¬(paths.all (fun q => (pathNum q).isSome) = true) := by
    rw [List.all_eq_true]
    push_neg
    exact ⟨p, hp, by simp [hn]⟩
  unfold sort_paths
  rw [if_neg h1, if_neg h2]

/-- C6 amended witness: a two-element list with one bad suffix fails. -/
theorem sort_paths_nonnumeric_error_witness :
    sort_paths ["a_x.parquet", "b_1.parquet"] = none :=
  sort_paths_nonnumeric_error ["a_x.parquet", "b_1.parquet"] (by decide)
    "a_x.parquet" (by decide) (by decide)

theorem set_dtypes_mem {cfg : Config} :
    ∀ {schema out : List (String × Dtype)}, set_dtypes cfg schema = some out →
    ∀ {col : String} {d : Dtype}, (col, d) ∈ schema →
    ∃ d2, set_dtypes_col cfg col d = some d2 ∧ (col, d2) ∈ out := by
  intro schema
  induction schema with
  | nil =>
    intro out h col d hm
    simp at hm
  | cons cd rest ih =>
    intro out h col d hm
    obtain ⟨c0, d0⟩ := cd
    rw [set_dtypes] at h
    cases hcol : set_dtypes_col cfg c0 d0 with
    | none => rw [hcol] at h; simp at h
    | some d2 =>
      rw [hcol] at h
      cases hrest : set_dtypes cfg rest with
      | none => rw [hrest] at h; simp at h
      | some rest2 =>
        rw [hrest] at h
        simp at h
        subst h
        rcases List.mem_cons.mp hm with he | hr
        · obtain ⟨h1, h2⟩ := Prod.mk.injEq .. ▸ he
          subst h1; subst h2
          exact ⟨d2, hcol, List.mem_cons_self _ _⟩
        · obtain ⟨d2', hc', hm'⟩ := ih hrest hr
          exact ⟨d2', hc', List.mem_cons_of_mem _ hm'⟩

theorem set_dtypes_col_suffix {cfg : Config} {col : String} {c : Char}
    (hc : lastChar col = some c)
    (h1 : col ≠ cfg.colID) (h2 : col ≠ cfg.colWEEK) (h3 : col ≠ "num_group1")
    (h4 : col ≠ "num_group2") (h5 : col ≠ cfg.colDATE) (d : Dtype) :
    set_dtypes_col cfg col d =
      if c = 'P' ∨ c = 'A' then some Dtype.float64
      else if c = 'M' then some Dtype.string
      else if c = 'D' then some Dtype.date
      else some d := by
  unfold set_dtypes_col
  rw [if_neg (by simp [h1, h2, h3, h4]), if_neg h5, hc]

theorem lastChar_ne {col : String} {c : Char} (hc : lastChar col = some c)
    (t : String) (ht : lastChar t ≠ some c) : col ≠ t :=
  fun he => ht (he ▸ hc)

/-- C2: under the spec-modelled configuration, `set_dtypes` maps a column
whose name ends in `P` or `A` to float, one ending in `M` to string, one
ending in `D` to date, and the identity, week and group-number columns to
integer regardless of suffix; and the worked example evaluates exactly as
the spec states. -/
theorem set_dtypes_suffix_rules :
    (∀ (schema out : List (String × Dtype)) (col : String) (d : Dtype),
      set_dtypes specConfig schema = some out → (col, d) ∈ schema →
        (lastChar col = some 'P' ∨ lastChar col = some 'A' →
          (col, Dtype.float64) ∈ out)
      ∧ (lastChar col = some 'M' → (col, Dtype.string) ∈ out)
      ∧ (lastChar col = some 'D' → (col, Dtype.date) ∈ out)
      ∧ (col = specConfig.colID ∨ col = specConfig.colWEEK ∨ col = "num_group1" ∨
          col = "num_group2" → (col, Dtype.int64) ∈ out))
  ∧ set_dtypes specConfig [("amt_P", Dtype.null), ("id", Dtype.null), ("flag_M", Dtype.null)]
      = some [("amt_P", Dtype.float64), ("id", Dtype.int64), ("flag_M", Dtype.string)] := by
  refine ⟨?_, by decide⟩
  intro schema out col d h hm
  obtain ⟨d2, hcol, hout⟩ := set_dtypes_mem h hm
  have hsuffix : ∀ c : Char, lastChar col = some c → c = 'P' ∨ c = 'A' ∨ c = 'M' ∨ c = 'D' →
      set_dtypes_col specConfig col d =
        if c = 'P' ∨ c = 'A' then some Dtype.float64
        else if c = 'M' then some Dtype.string
        else if c = 'D' then some Dtype.date
        else some d := by
    intro c hc hcases
    refine set_dtypes_col_suffix hc ?_ ?_ ?_ ?_ ?_ d
    · exact lastChar_ne hc _ (by rcases hcases with h | h | h | h <;> subst h <;> decide)
    · exact lastChar_ne hc _ (by rcases hcases with h | h | h | h <;> subst h <;> decide)
    · exact lastChar_ne hc _ (by rcases hcases with h | h | h | h <;> subst h <;> decide)
    · exact lastChar_ne hc _ (by rcases hcases with h | h | h | h <;> subst h <;> decide)
    · exact lastChar_ne hc _ (by rcases hcases with h | h | h | h <;> subst h <;> decide)
  refine ⟨?_, ?_, ?_, ?_⟩
  · rintro (hc | hc)
    · have := hsuffix 'P' hc (Or.inl rfl)
      rw [this] at hcol; simp at hcol
      exact hcol ▸ hout
    · have := hsuffix 'A' hc (Or.inr (Or.inl rfl))
      rw [this] at hcol; simp at hcol
      exact hcol ▸ hout
  · intro hc
    have := hsuffix 'M' hc (Or.inr (Or.inr (Or.inl rfl)))
    rw [this] at hcol; simp at hcol
    exact hcol ▸ hout
  · intro hc
    have := hsuffix 'D' hc (Or.inr (Or.inr (Or.inr rfl)))
    rw [this] at hcol; simp at hcol
    exact hcol ▸ hout
  · intro hid
    have : set_dtypes_col specConfig col d = some Dtype.int64 := by
      unfold set_dtypes_col
      rw [if_pos hid]
    rw [this] at hcol
    simp at hcol
    exact hcol ▸ hout

/-- C2 witness: the float clause applied to a concrete one-column schema. -/
theorem set_dtypes_suffix_rules_witness :
    ("amt_P", Dtype.float64) ∈ [("amt_P", Dtype.float64)] :=
  (set_dtypes_suffix_rules.1 [("amt_P", Dtype.null)] [("amt_P", Dtype.float64)]
    "amt_P" Dtype.null (by decide) (by decide)).1 (Or.inl (by decide))

/-- C7: a column that is none of the identity, week, group-number or known
date columns and whose last character is not `P`, `A`, `M` or `D` — in
particular one ending in `T` or `L` — keeps exactly the dtype it had in the
input schema. -/
theorem set_dtypes_unrecognized_suffix_noop (cfg : Config)
    (schema out : List (String × Dtype)) (h : set_dtypes cfg schema = some out)
    (col : String) (d : Dtype) (hm : (col, d) ∈ schema)
    (h1 : col ≠ cfg.colID) (h2 : col ≠ cfg.colWEEK) (h3 : col ≠ "num_group1")
    (h4 : col ≠ "num_group2") (h5 : col ≠ cfg.colDATE)
    (c : Char) (hc : lastChar col = some c)
    (hP : c ≠ 'P') (hA : c ≠ 'A') (hM : c ≠ 'M') (hD : c ≠ 'D') :
    (col, d) ∈ out := by
  obtain ⟨d2, hcol, hout⟩ := set_dtypes_mem h hm
  rw [set_dtypes_col_suffix hc h1 h2 h3 h4 h5 d] at hcol
  rw [if_neg (by simp [hP, hA]), if_neg hM, if_neg hD] at hcol
  simp at hcol
  exact hcol ▸ hout

/-- C7 witness: a `T`-suffixed boolean column passes through unchanged. -/
theorem set_dtypes_unrecognized_suffix_noop_witness :
    ("x_T", Dtype.boolean) ∈ [("x_T", Dtype.boolean)] :=
  set_dtypes_unrecognized_suffix_noop specConfig [("x_T", Dtype.boolean)]
    [("x_T", Dtype.boolean)] (by decide) "x_T" Dtype.boolean (by decide)
    (by decide) (by decide) (by decide) (by decide) (by decide)
    'T' (by decide) (by decide) (by decide) (by decide) (by decide)

theorem dictGet_dictInsert_self {α : Type} (d : List (String × α)) (k : String) (v : α) :
    dictGet (dictInsert d k v) k = some v := by
  induction d with
  | nil =>
    unfold dictInsert dictGet
    rw [List.find?_cons_of_pos _ (by simp)]
    rfl
  | cons p ps ih =>
    unfold dictInsert
    by_cases hk : p.1 = k
    · rw [if_pos hk]
      unfold dictGet
      rw [List.find?_cons_of_pos _ (by simp)]
      rfl
    · rw [if_neg hk]
      unfold dictGet
      rw [List.find?_cons_of_neg _ (by simpa using hk)]
      exact ih

theorem dictGet_dictInsert_ne {α : Type} (d : List (String × α)) (k k2 : String)
    (v : α) (hne : k2 ≠ k) : dictGet (dictInsert d k v) k2 = dictGet d k2 := by
  induction d with
  | nil =>
    unfold dictInsert dictGet
    rw [List.find?_cons_of_neg _ (by simpa using (Ne.symm hne)), List.find?_nil]
  | cons p ps ih =>
    unfold dictInsert
    by_cases hk : p.1 = k
    · rw [if_pos hk]
      unfold dictGet
      rw [List.find?_cons_of_neg _ (by simpa using (Ne.symm hne)),
        List.find?_cons_of_neg _ (by rw [hk]; simpa using (Ne.symm hne))]
    · rw [if_neg hk]
      by_cases hp2 : p.1 = k2
      · unfold dictGet
        rw [List.find?_cons_of_pos _ (by simpa using hp2),
          List.find?_cons_of_pos _ (by simpa using hp2)]
      · unfold dictGet
        rw [List.find?_cons_of_neg _ (by simpa using hp2),
          List.find?_cons_of_neg _ (by simpa using hp2)]
        exact ih

theorem colLoop_processColumn_isSome {fa fsg : List FeatureRow} {df : DF}
    {schema : List (String × Dtype)} :
    ∀ {cols : List String} {acc res : ColLoopState},
      colLoop fa fsg df schema cols acc = some res →
      ∀ {col : String}, col ∈ cols →
      ∃ r, processColumn fa fsg df schema col = some r := by
  intro cols
  induction cols with
  | nil =>
    intro acc res h col hc
    simp at hc
  | cons c cs ih =>
    intro acc res h col hc
    rw [colLoop] at h
    cases hstep : colStep fa fsg df schema acc c with
    | none => rw [hstep] at h; simp at h
    | some acc2 =>
      rw [hstep] at h
      simp only [Option.bind_eq_bind, Option.some_bind] at h
      rcases List.mem_cons.mp hc with rfl | hcs
      · unfold colStep at hstep
        cases hr : processColumn fa fsg df schema col with
        | none => rw [hr] at hstep; simp at hstep
        | some r => exact ⟨r, rfl⟩
      · exact ih h hcs

theorem colLoop_lookup {fa fsg : List FeatureRow} {df : DF}
    {schema : List (String × Dtype)} :
    ∀ {cols : List String} {acc res : ColLoopState},
      colLoop fa fsg df schema cols acc = some res →
      ∀ {col : String} {r : ColResult},
        processColumn fa fsg df schema col = some r →
        ((dictGet acc.mapping col = some (some r.mapped) →
            dictGet res.mapping col = some (some r.mapped))
        ∧ (col ∈ cols → dictGet res.mapping col = some (some r.mapped))
        ∧ (∀ vals, r.cat = some vals →
            (dictGet acc.cols_cat_i col = some vals →
              dictGet res.cols_cat_i col = some vals)
            ∧ (col ∈ cols → dictGet res.cols_cat_i col = some vals))) := by
  intro cols
  induction cols with
  | nil =>
    intro acc res h col r hr
    rw [colLoop] at h
    cases h
    exact ⟨fun hx => hx, fun hc => absurd hc (List.not_mem_nil col),
      fun vals hv => ⟨fun hx => hx, fun hc => absurd hc (List.not_mem_nil col)⟩⟩
  | cons c cs ih =>
    intro acc res h col r hr
    rw [colLoop] at h
    cases hstep : colStep fa fsg df schema acc c with
    | none => rw [hstep] at h; simp at h
    | some acc2 =>
      rw [hstep] at h
      simp only [Option.bind_eq_bind, Option.some_bind] at h
      unfold colStep at hstep
      cases hrc : processColumn fa fsg df schema c with
      | none => rw [hrc] at hstep; simp at hstep
      | some rc =>
        rw [hrc] at hstep
        simp only [Option.bind_eq_bind, Option.some_bind, Option.some.injEq] at hstep
        subst hstep
        have IH := ih h hr
        by_cases hcc : col = c
        · subst hcc
          have hrrc : r = rc := by
            rw [hr] at hrc
            exact (Option.some.injEq _ _ ▸ hrc)
          subst hrrc
          have hmapping : dictGet
              (dictInsert acc.mapping col (some r.mapped)) col
              = some (some r.mapped) := dictGet_dictInsert_self _ _ _
          refine ⟨fun _ => IH.1 hmapping, fun _ => IH.1 hmapping, ?_⟩
          intro vals hv
          have hcat : dictGet
              (match r.cat with
                | some vals2 => dictInsert acc.cols_cat_i col vals2
                | none => acc.cols_cat_i) col = some vals := by
            rw [hv]
            exact dictGet_dictInsert_self _ _ _
          exact ⟨fun _ => (IH.2.2 vals hv).1 hcat, fun _ => (IH.2.2 vals hv).1 hcat⟩
        · have hmapeq : dictGet (dictInsert acc.mapping c (some rc.mapped)) col
              = dictGet acc.mapping col := dictGet_dictInsert_ne _ _ _ _ hcc
          have hcateq : dictGet
              (match rc.cat with
                | some vals2 => dictInsert acc.cols_cat_i c vals2
                | none => acc.cols_cat_i) col = dictGet acc.cols_cat_i col := by
            cases rc.cat with
            | some vals2 => exact dictGet_dictInsert_ne _ _ _ _ hcc
            | none => rfl
          refine ⟨fun hacc => IH.1 (hmapeq ▸ hacc), ?_, ?_⟩
          · intro hc
            rcases List.mem_cons.mp hc with rfl | hcs
            · exact absurd rfl hcc
            · exact IH.2.1 hcs
          · intro vals hv
            refine ⟨fun hacc => (IH.2.2 vals hv).1 (hcateq ▸ hacc), ?_⟩
            intro hc
            rcases List.mem_cons.mp hc with rfl | hcs
            · exact absurd rfl hcc
            · exact (IH.2.2 vals hv).2 hcs

theorem processColumn_mapped_of_empty {fa fsg : List FeatureRow} {df : DF}
    {schema : List (String × Dtype)} {col : String} {r : ColResult}
    (hr : processColumn fa fsg df schema col = some r)
    (hsg : rowsFor fsg col = []) : r.mapped = col := by
  unfold processColumn at hr
  cases hdt : dictGet schema col with
  | none => rw [hdt] at hr; simp at hr
  | some dtype =>
    rw [hdt, hsg] at hr
    simp only [Option.bind_eq_bind, Option.some_bind, Option.some.injEq] at hr
    rw [← hr]

theorem processColumn_mapped_of_row {fa fsg : List FeatureRow} {df : DF}
    {schema : List (String × Dtype)} {col : String} {r : ColResult}
    {row : FeatureRow}
    (hr : processColumn fa fsg df schema col = some r)
    (hsg : rowsFor fsg col = [row]) :
    r.mapped = if row.new_name ≠ "" then row.new_name else col := by
  unfold processColumn at hr
  cases hdt : dictGet schema col with
  | none => rw [hdt] at hr; simp at hr
  | some dtype =>
    rw [hdt, hsg] at hr
    simp only [Option.bind_eq_bind, Option.some_bind] at hr
    cases hall : rowsFor fa col with
    | nil => rw [hall] at hr; simp at hr
    | cons rowAll rest =>
      cases rest with
      | cons b bs => rw [hall] at hr; simp at hr
      | nil =>
        rw [hall] at hr
        by_cases hagg : rowAll.agg = "dummy"
        · simp only [if_pos hagg, Option.some.injEq] at hr
          rw [← hr]
        · simp only [if_neg hagg, Option.some.injEq] at hr
          rw [← hr]

theorem processColumn_rowsAll_singleton {fa fsg : List FeatureRow} {df : DF}
    {schema : List (String × Dtype)} {col : String} {r : ColResult}
    {row : FeatureRow}
    (hr : processColumn fa fsg df schema col = some r)
    (hsg : rowsFor fsg col = [row]) :
    ∃ rowAll, rowsFor fa col = [rowAll] := by
  unfold processColumn at hr
  cases hdt : dictGet schema col with
  | none => rw [hdt] at hr; simp at hr
  | some dtype =>
    rw [hdt, hsg] at hr
    simp only [Option.bind_eq_bind, Option.some_bind] at hr
    cases hall : rowsFor fa col with
    | nil => rw [hall] at hr; simp at hr
    | cons rowAll rest =>
      cases rest with
      | cons b bs => rw [hall] at hr; simp at hr
      | nil => exact ⟨rowAll, rfl⟩

theorem processColumn_cat_of_dummy {fa fsg : List FeatureRow} {df : DF}
    {schema : List (String × Dtype)} {col : String} {r : ColResult}
    {row rowAll : FeatureRow}
    (hr : processColumn fa fsg df schema col = some r)
    (hsg : rowsFor fsg col = [row])
    (hall : rowsFor fa col = [rowAll])
    (hagg : rowAll.agg = "dummy") :
    r.cat = some (catDomain df col) := by
  unfold processColumn at hr
  cases hdt : dictGet schema col with
  | none => rw [hdt] at hr; simp at hr
  | some dtype =>
    rw [hdt, hsg, hall] at hr
    simp only [Option.bind_eq_bind, Option.some_bind, if_pos hagg,
      Option.some.injEq] at hr
    rw [← hr]

theorem rowsFor_filter_mem {fa : List FeatureRow} {p : FeatureRow → Bool}
    {col : String} {row : FeatureRow}
    (h : rowsFor (fa.filter p) col = [row]) : row ∈ rowsFor fa col := by
  have hm : row ∈ rowsFor (fa.filter p) col := by
    rw [h]
    exact List.mem_cons_self _ _
  unfold rowsFor at hm ⊢
  rw [List.mem_filter] at hm ⊢
  exact ⟨(List.mem_filter.mp hm.1).1, hm.2⟩

theorem catDomain_nodup (df : DF) (col : String) : (catDomain df col).Nodup := by
  unfold catDomain
  refine List.Nodup.filterMap ?_ (List.nodup_dedup _)
  intro a a' b hb hb'
  have ha : a = some b := by
    cases a with
    | none => simp at hb
    | some s =>
      by_cases hs : s = ""
      · rw [hs] at hb; simp at hb
      · simp only [Option.mem_def, if_neg hs] at hb
        rw [(Option.some.injEq _ _ ▸ hb : s = b)]
  have ha' : a' = some b := by
    cases a' with
    | none => simp at hb'
    | some s =>
      by_cases hs : s = ""
      · rw [hs] at hb'; simp at hb'
      · simp only [Option.mem_def, if_neg hs] at hb'
        rw [(Option.some.injEq _ _ ▸ hb' : s = b)]
  rw [ha, ha']

theorem catDomain_mem (df : DF) (col : String) (v : String) :
    v ∈ catDomain df col ↔ some v ∈ df.values col ∧ v ≠ "" := by
  unfold catDomain
  rw [List.mem_filterMap]
  constructor
  · rintro ⟨a, ha, hfa⟩
    cases a with
    | none => simp at hfa
    | some s =>
      by_cases hs : s = ""
      · rw [hs] at hfa; simp at hfa
      · simp only [if_neg hs, Option.some.injEq] at hfa
        subst hfa
        exact ⟨List.mem_dedup.mp ha, hs⟩
  · rintro ⟨hv, hne⟩
    exact ⟨some v, List.mem_dedup.mpr hv, by simp [hne]⟩

theorem processPattern_unfold {cfg : Config} {env : Env}
    {fa fsg : List FeatureRow} {fn : String} {tp : List String} {p0 : String}
    {df : DF} {schema : List (String × Dtype)} {out : PatternOut}
    (h1 : sort_paths (env.glob (gen_file_path fn "train")) = some tp)
    (h2 : tp.head? = some p0) (h3 : env.readParquet p0 = some df)
    (h4 : set_dtypes cfg df.schema = some schema)
    (hp : processPattern cfg env fa fsg fn = some out) :
    ∃ res, colLoop fa fsg df schema df.columns
        { mapping := df.columns.map (fun c => (c, none)),
          cols_to_incl := [], cols_cat_i := [], cols_dtypes := [] } = some res
      ∧ out.struct.columns_map = res.mapping
      ∧ out.cols_cat_i = res.cols_cat_i
      ∧ out.struct.schema = schema
      ∧ out.struct.paths = { train := [], test := [] } := by
  unfold processPattern at hp
  rw [h1] at hp
  simp only [Option.bind_eq_bind, Option.some_bind] at hp
  rw [h2] at hp
  simp only [Option.some_bind] at hp
  rw [h3] at hp
  simp only [Option.some_bind] at hp
  rw [h4] at hp
  simp only [Option.some_bind] at hp
  cases htest : sort_paths (env.glob (gen_file_path fn "test")) with
  | none => rw [htest] at hp; simp at hp
  | some t =>
    rw [htest] at hp
    simp only [Option.some_bind] at hp
    cases hloop : colLoop fa fsg df schema df.columns
        { mapping := df.columns.map (fun c => (c, none)),
          cols_to_incl := [], cols_cat_i := [], cols_dtypes := [] } with
    | none => rw [hloop] at hp; simp at hp
    | some res =>
      rw [hloop] at hp
      simp only [Option.some_bind, Option.some.injEq] at hp
      refine ⟨res, rfl, ?_, ?_, ?_, ?_⟩ <;> rw [← hp]

/-- C5: the column mapping `write_data_props` builds for a pattern sends a
raw column name to the non-empty `new_name` of its unique row in the
group-filtered features table, and to the column name itself in every other
case — a column whose `new_name` is empty as well as a column absent from
the filtered table. -/
theorem write_data_props_columns_map
    (cfg : Config) (env : Env) (fa fsg : List FeatureRow) (fn : String)
    (tp : List String) (p0 : String) (df : DF)
    (schema : List (String × Dtype)) (out : PatternOut)
    (h1 : sort_paths (env.glob (gen_file_path fn "train")) = some tp)
    (h2 : tp.head? = some p0) (h3 : env.readParquet p0 = some df)
    (h4 : set_dtypes cfg df.schema = some schema)
    (hp : processPattern cfg env fa fsg fn = some out)
    (col : String) (hc : col ∈ df.columns)
    (r : ColResult) (hr : processColumn fa fsg df schema col = some r) :
    dictGet out.struct.columns_map col = some (some r.mapped)
    ∧ (∀ row, rowsFor fsg col = [row] → row.new_name ≠ "" → r.mapped = row.new_name)
    ∧ (∀ row, rowsFor fsg col = [row] → row.new_name = "" → r.mapped = col)
    ∧ (rowsFor fsg col = [] → r.mapped = col) := by
  obtain ⟨res, hloop, hcm, _, _, _⟩ := processPattern_unfold h1 h2 h3 h4 hp
  refine ⟨?_, ?_, ?_, processColumn_mapped_of_empty hr⟩
  · rw [hcm]
    exact (colLoop_lookup hloop hr).2.1 hc
  · intro row hrow hnn
    rw [processColumn_mapped_of_row hr hrow, if_pos hnn]
  · intro row hrow hnn
    rw [processColumn_mapped_of_row hr hrow, if_neg (by simp [hnn])]

/-- C5 witness: on the concrete machine, the renamed column `cat_M` maps to
`catX_M` in the recorded mapping. -/
theorem write_data_props_columns_map_witness :
    dictGet outA.struct.columns_map "cat_M" = some (some "catX_M") :=
  (write_data_props_columns_map specConfig envA featuresA
    (featuresA.filter (fun r => r.source_group = "g")) "a"
    ["data/parquet_files/train/train_a_1.parquet",
     "data/parquet_files/train/train_a_2.parquet"]
    "data/parquet_files/train/train_a_1.parquet" dfA
    [("id", Dtype.int64), ("cat_M", Dtype.string), ("x_T", Dtype.boolean)]
    outA (by decide) (by decide) rfl (by decide) rfl "cat_M" (by decide)
    { mapped := "catX_M", cat := some ["v", "u"], dtype := Dtype.string }
    (by decide)).1

/-- C4: a sample-file column flagged `agg == "dummy"` by its unique row in
the features table filtered to the current group (the same unique row the
unfiltered lookup of the source reads the flag from) gets recorded with a
categorical domain holding exactly the distinct observed values that are
neither null nor the empty string. -/
theorem write_data_props_categorical_domain
    (cfg : Config) (env : Env) (fa : List FeatureRow) (name : String)
    (fn : String) (tp : List String) (p0 : String) (df : DF)
    (schema : List (String × Dtype)) (out : PatternOut)
    (h1 : sort_paths (env.glob (gen_file_path fn "train")) = some tp)
    (h2 : tp.head? = some p0) (h3 : env.readParquet p0 = some df)
    (h4 : set_dtypes cfg df.schema = some schema)
    (hp : processPattern cfg env fa
      (fa.filter (fun r => r.source_group = name)) fn = some out)
    (col : String) (hc : col ∈ df.columns) (row : FeatureRow)
    (hrow : rowsFor (fa.filter (fun r => r.source_group = name)) col = [row])
    (hagg : row.agg = "dummy") :
    dictGet out.cols_cat_i col = some (catDomain df col)
    ∧ (catDomain df col).Nodup
    ∧ (∀ v : String, v ∈ catDomain df col ↔ some v ∈ df.values col ∧ v ≠ "") := by
  obtain ⟨res, hloop, _, hcci, _, _⟩ := processPattern_unfold h1 h2 h3 h4 hp
  obtain ⟨r, hr⟩ := colLoop_processColumn_isSome hloop hc
  obtain ⟨rowAll, hall⟩ := processColumn_rowsAll_singleton hr hrow
  have hra : rowAll = row := by
    have hmem : row ∈ rowsFor fa col := rowsFor_filter_mem hrow
    rw [hall] at hmem
    exact (List.mem_singleton.mp hmem).symm
  have haggAll : rowAll.agg = "dummy" := by rw [hra]; exact hagg
  have hcat : r.cat = some (catDomain df col) :=
    processColumn_cat_of_dummy hr hrow hall haggAll
  refine ⟨?_, catDomain_nodup df col, fun v => catDomain_mem df col v⟩
  rw [hcci]
  exact ((colLoop_lookup hloop hr).2.2 (catDomain df col) hcat).2 hc

/-- C4 witness: on the concrete machine, the dummy-flagged column `cat_M`
gets the categorical domain of its sample file recorded. -/
theorem write_data_props_categorical_domain_witness :
    dictGet outA.cols_cat_i "cat_M" = some (catDomain dfA "cat_M") :=
  (write_data_props_categorical_domain specConfig envA featuresA "g" "a"
    ["data/parquet_files/train/train_a_1.parquet",
     "data/parquet_files/train/train_a_2.parquet"]
    "data/parquet_files/train/train_a_1.parquet" dfA
    [("id", Dtype.int64), ("cat_M", Dtype.string), ("x_T", Dtype.boolean)]
    outA (by decide) (by decide) rfl (by decide) rfl "cat_M" (by decide)
    { feature := "cat_M", source_group := "g", new_name := "catX_M",
      agg := "dummy", date_col := 0 }
    (by decide) (by decide)).1

/-- C1 (code bug): on a machine where the whole run succeeds and glob finds
real train and test files, the `"paths"` entry of the pattern's structure
record still holds its initial empty value — the globbed and sorted paths
are computed and then discarded by the source, never stored. -/
theorem write_data_props_paths_left_empty :
    ((write_data_props specConfig envA [("g", ["a"])]).map
        (fun r => (dictGet r.1 "g").map (fun g =>
          (dictGet g.structure_dict "a").map (fun s => s.paths))))
      = some (some (some { train := [], test := [] }))
    ∧ sort_paths (envA.glob (gen_file_path "a" "train"))
      = some ["data/parquet_files/train/train_a_1.parquet",
              "data/parquet_files/train/train_a_2.parquet"]
    ∧ sort_paths (envA.glob (gen_file_path "a" "test"))
      = some ["data/parquet_files/test/test_a_1.parquet"] := by
  refine ⟨rfl, by decide, by decide⟩

theorem processPattern_none_of_empty_train {cfg : Config} {env : Env}
    {fa fsg : List FeatureRow} {fn : String}
    (hempty : env.glob (gen_file_path fn "train") = []) :
    processPattern cfg env fa fsg fn = none := by
  unfold processPattern
  rw [hempty]
  rfl

theorem patternLoop_none {cfg : Config} {env : Env} {fa fsg : List FeatureRow}
    {patterns : List String} {fn : String}
    (hf : fn ∈ patterns) (hnone : processPattern cfg env fa fsg fn = none) :
    ∀ acc, patternLoop cfg env fa fsg patterns acc = none := by
  induction patterns with
  | nil => simp at hf
  | cons p ps ih =>
    intro acc
    rw [patternLoop]
    rcases List.mem_cons.mp hf with rfl | hps
    · rw [hnone]
      rfl
    · cases hpp : processPattern cfg env fa fsg p with
      | none => rfl
      | some out =>
        simp only [Option.bind_eq_bind, Option.some_bind]
        exact ih hps _

theorem processGroup_none_of_empty_train {cfg : Config} {env : Env}
    {fa : List FeatureRow} {name : String} {patterns : List String} {fn : String}
    (hf : fn ∈ patterns) (hempty : env.glob (gen_file_path fn "train") = []) :
    processGroup cfg env fa name patterns = none := by
  have hpl := @patternLoop_none cfg env fa
    (fa.filter (fun r => r.source_group = name)) patterns fn hf
    (processPattern_none_of_empty_train hempty)
  unfold processGroup
  simp only [hpl, Option.bind_eq_bind, Option.none_bind]

theorem groupLoop_none {cfg : Config} {env : Env} {fa : List FeatureRow}
    {dfs : List (String × List String)} {name : String} {patterns : List String}
    (hg : (name, patterns) ∈ dfs)
    (hnone : processGroup cfg env fa name patterns = none) :
    groupLoop cfg env fa dfs = none := by
  induction dfs with
  | nil => simp at hg
  | cons gp rest ih =>
    obtain ⟨n, ps⟩ := gp
    rw [groupLoop]
    rcases List.mem_cons.mp hg with heq | hrest
    · obtain ⟨hn, hp⟩ := Prod.mk.injEq .. ▸ heq
      subst hn; subst hp
      rw [hnone]
      rfl
    · cases hpg : processGroup cfg env fa n ps with
      | none => rfl
      | some g =>
        simp only [Option.bind_eq_bind, Option.some_bind]
        rw [ih hrest]
        rfl

/-- C8 amended: an empty TRAIN glob for any pattern of any group in the
input makes `write_data_props` fail with the uncaught index error on
`paths_i[0]`; an empty test glob is sorted and discarded without indexing
and so does not fail (see the counterexample). -/
theorem write_data_props_empty_train_glob_fails (cfg : Config) (env : Env)
    (dfs_props : List (String × List String)) (name : String)
    (patterns : List String) (fn : String)
    (hg : (name, patterns) ∈ dfs_props) (hf : fn ∈ patterns)
    (hempty : env.glob (gen_file_path fn "train") = []) :
    write_data_props cfg env dfs_props = none := by
  unfold write_data_props
  rw [groupLoop_none hg (processGroup_none_of_empty_train hf hempty)]
  rfl

/-- C8 amended witness: the failure on a concrete machine whose train glob
is empty. -/
theorem write_data_props_empty_train_glob_fails_witness :
    write_data_props specConfig envEmptyTrain [("g", ["a"])] = none :=
  write_data_props_empty_train_glob_fails specConfig envEmptyTrain
    [("g", ["a"])] "g" ["a"] "a" (by decide) (by decide) (by decide)

/-- C8 counterexample: a pattern whose TEST glob is empty does not make
`write_data_props` fail — the run succeeds because the test paths are never
indexed. -/
theorem write_data_props_empty_test_glob_ok :
    envEmptyTest.glob (gen_file_path "a" "test") = []
    ∧ (write_data_props specConfig envEmptyTest [("g", ["a"])]).isSome = true := by
  refine ⟨by decide, rfl⟩

theorem decodeDtype_encodeDtype (d : Dtype) : decodeDtype (encodeDtype d) = some d := by
  cases d <;> rfl

theorem decodeList_encode {α : Type} (f : α → PVal) (g : PVal → Option α)
    (hfg : ∀ x, g (f x) = some x) (xs : List α) :
    decodeList g (xs.map f) = some xs := by
  induction xs with
  | nil => rfl
  | cons x rest ih =>
    rw [List.map_cons, decodeList, hfg x]
    simp only [Option.bind_eq_bind, Option.some_bind]
    rw [ih]
    rfl

theorem decodeListWith_encodeListWith {α : Type} (f : α → PVal) (g : PVal → Option α)
    (hfg : ∀ x, g (f x) = some x) (xs : List α) :
    decodeListWith g (encodeListWith f xs) = some xs := by
  unfold encodeListWith decodeListWith
  exact decodeList_encode f g hfg xs

theorem decodeAssoc_encodeAssoc {α : Type} (f : α → PVal) (g : PVal → Option α)
    (hfg : ∀ x, g (f x) = some x) (xs : List (String × α)) :
    decodeAssoc g (encodeAssoc f xs) = some xs := by
  unfold encodeAssoc decodeAssoc
  refine decodeList_encode _ (decodePair g) ?_ xs
  intro kv
  show (g (f kv.2)).map (fun x => (kv.1, x)) = some kv
  rw [hfg kv.2]
  rfl

theorem decodeStr_str (s : String) : decodeStr (PVal.str s) = some s := rfl

theorem decodeOptStr_encodeOptStr (o : Option String) :
    decodeOptStr (encodeOptStr o) = some o := by
  cases o <;> rfl

theorem decodePathsField_encodePathsField (p : PathsField) :
    decodePathsField (encodePathsField p) = some p := by
  unfold encodePathsField decodePathsField
  simp only [decodeAssoc_encodeAssoc PVal.str decodeStr decodeStr_str,
    decodeListWith_encodeListWith PVal.str decodeStr decodeStr_str,
    Option.bind_eq_bind, Option.some_bind]

theorem decodePatternStruct_encodePatternStruct (p : PatternStruct) :
    decodePatternStruct (encodePatternStruct p) = some p := by
  unfold encodePatternStruct decodePatternStruct
  simp only [decodePathsField_encodePathsField,
    decodeAssoc_encodeAssoc encodeDtype _ decodeDtype_encodeDtype,
    decodeAssoc_encodeAssoc encodeOptStr _ decodeOptStr_encodeOptStr,
    Option.bind_eq_bind, Option.some_bind]

theorem decodeGroupProps_encodeGroupProps (g : GroupProps) :
    decodeGroupProps (encodeGroupProps g) = some g := by
  unfold encodeGroupProps decodeGroupProps
  simp only [decodeListWith_encodeListWith PVal.str decodeStr decodeStr_str,
    decodeAssoc_encodeAssoc encodePatternStruct _
      decodePatternStruct_encodePatternStruct,
    decodeAssoc_encodeAssoc (encodeListWith PVal.str) _
      (decodeListWith_encodeListWith PVal.str decodeStr decodeStr_str),
    decodeAssoc_encodeAssoc encodeDtype _ decodeDtype_encodeDtype,
    Option.bind_eq_bind, Option.some_bind]

theorem pickleLoad_pickleDump (props : List (String × GroupProps)) :
    pickleLoad (pickleDump props) = some props := by
  unfold pickleLoad pickleDump
  exact decodeAssoc_encodeAssoc encodeGroupProps _
    decodeGroupProps_encodeGroupProps props

/-- C9: whatever the blob `write_data_props` writes, reloading it yields a
structure equal field-by-field to the in-memory `dfs_props` as it stood just
before writing. -/
theorem write_data_props_pickle_roundtrip (cfg : Config) (env : Env)
    (dfs_props : List (String × List String))
    (res : List (String × GroupProps)) (blob : PVal)
    (h : write_data_props cfg env dfs_props = some (res, blob)) :
    pickleLoad blob = some res := by
  unfold write_data_props at h
  cases hg : groupLoop cfg env env.featuresCsv dfs_props with
  | none => rw [hg] at h; simp at h
  | some groups =>
    rw [hg] at h
    simp only [Option.bind_eq_bind, Option.some_bind, Option.some.injEq] at h
    injection h with h1 h2
    subst h1; subst h2
    exact pickleLoad_pickleDump groups

/-- C9 witness: the round trip at the concrete successful run. -/
theorem write_data_props_pickle_roundtrip_witness :
    pickleLoad blobA = some resA :=
  write_data_props_pickle_roundtrip specConfig envA [("g", ["a"])] resA blobA rfl

end HomeCredit
